import Mathlib

/- Verification development for the high-resolution map capture tool
   (index.js, disk-based stitching variant).  The embedding covers:
   the Web-Mercator latitude conversion, the 3x3 tile-range expansion,
   the tile cache / fetcher with its hit and miss counters, the
   three-phase block mosaic composer (modelled at the level of artifact
   pixel dimensions and buffer allocations), and the per-area
   orchestrator loop with its pre-flight tile-count ceiling. -/

set_option linter.unusedVariables false

-- ===================================================================
-- Mosaic composer, dimension level (index.js lines 618-805).
-- Images on disk are tracked by their pixel dimensions only; the
-- claims under verification are about dimensions and buffer sizes.
-- ===================================================================

/-- Pixel dimensions of one image artifact. -/
structure Dim where
  width : Nat
  height : Nat
deriving DecidableEq

instance : Inhabited Dim := ⟨⟨0, 0⟩⟩

/-- Horizontal stitch of two artifacts (phase 2, lines 730-743): the
canvas is created with width the sum of the two input widths and height
the FIRST input's height; inputs are placed at left 0 and left meta1.width. -/
def hMerge (a b : Dim) : Dim := ⟨a.width + b.width, a.height⟩

/-- Vertical stitch of two artifacts (phase 3, lines 780-793): the canvas
is created with the FIRST input's width and the sum of the heights. -/
def vMerge (a b : Dim) : Dim := ⟨a.width, a.height + b.height⟩

/-- One pass of the pairwise reduction loop (the for loop with i += 2 at
lines 719-749 and 769-799).  Adjacent pairs are merged left to right; an
odd leftover is carried to the next level unmerged.  The second component
records the pairs handed to the merge, in order. -/
def reduceLevelT (m : Dim → Dim → Dim) : List Dim → List Dim × List (Dim × Dim)
  | a :: b :: rest =>
      let r := reduceLevelT m rest
      (m a b :: r.1, (a, b) :: r.2)
  | l => (l, [])

/-- The while loop at lines 715-752 and 763-802, iterated with explicit
fuel.  Each pass halves the list (rounding up), so fuel equal to the
initial length is always sufficient to reach a single artifact. -/
def reduceAllAux (m : Dim → Dim → Dim) : Nat → List Dim → List Dim × List (Dim × Dim)
  | 0, l => (l, [])
  | fuel + 1, l =>
      if l.length ≤ 1 then (l, [])
      else
        let r := reduceLevelT m l
        let s := reduceAllAux m fuel r.1
        (s.1, r.2 ++ s.2)

/-- Full pairwise binary-tree reduction of a list of artifacts, with the
trace of all merge input pairs. -/
def reduceAllT (m : Dim → Dim → Dim) (l : List Dim) : List Dim × List (Dim × Dim) :=
  reduceAllAux m l.length l

/-- BLOCK_SIZE_TILES (line 620). -/
def BLOCK : Nat := 10

/-- Number of blocks along an axis of n tiles: Math.ceil(n / 10)
(lines 626-627). -/
def blocksAlong (n : Nat) : Nat := (n + BLOCK - 1) / BLOCK

/-- Tiles in block index bx along an axis of n tiles:
endTile - startTile + 1 with endTile = min (startTile + 9) (n - 1)
relative to the axis origin (lines 633-639). -/
def blockW (n bx : Nat) : Nat := min BLOCK (n - bx * BLOCK)

/-- Dimensions of the block images of block row bY, in blockX order
(phase 1, lines 630-694): each block image is blockNumTilesX * T wide and
blockNumTilesY * T tall. -/
def rowDims (X Y T bY : Nat) : List Dim :=
  (List.range (blocksAlong X)).map (fun bx => ⟨blockW X bx * T, blockW Y bY * T⟩)

/-- The single artifact produced for block row bY by the horizontal
reduction (phase 2, lines 707-755). -/
def rowArtifact (X Y T bY : Nat) : Dim :=
  ((reduceAllT hMerge (rowDims X Y T bY)).1).headI

/-- The per-row artifacts, in blockY order (blockRowFiles, line 707). -/
def rowsDims (X Y T : Nat) : List Dim :=
  (List.range (blocksAlong Y)).map (fun bY => rowArtifact X Y T bY)

/-- The final mosaic artifact (phase 3, lines 757-805). -/
def finalDim (X Y T : Nat) : Dim :=
  ((reduceAllT vMerge (rowsDims X Y T)).1).headI

/-- All merge input pairs of the horizontal phase, over all block rows. -/
def hTraces (X Y T : Nat) : List (Dim × Dim) :=
  (List.range (blocksAlong Y)).flatMap
    (fun bY => (reduceAllT hMerge (rowDims X Y T bY)).2)

/-- All merge input pairs of the vertical phase. -/
def vTrace (X Y T : Nat) : List (Dim × Dim) :=
  (reduceAllT vMerge (rowsDims X Y T)).2

/-- In-memory pixel-buffer events during composition.
tileBuffer: one normalized tile produced by resize(T, T).toBuffer()
(lines 653-661).  blockResident: the set of one block's processed tile
buffers resident together while the block image is composited straight
to a file (lines 664-690); this is not a single buffer.  mergeInput: one
of the two file artifacts read by a file-to-file merge (lines 724-743 and
774-793); the merge output goes through toFile, never toBuffer. -/
inductive AllocEvent where
  | tileBuffer (w h : Nat)
  | blockResident (pixels : Nat)
  | mergeInput (w h : Nat)
deriving DecidableEq

def eventPixels : AllocEvent → Nat
  | AllocEvent.tileBuffer w h => w * h
  | AllocEvent.blockResident p => p
  | AllocEvent.mergeInput w h => w * h

/-- Whether the event is a single addressable pixel buffer (a block's
resident set is a collection of tile buffers, not one buffer). -/
def isSingleBuffer : AllocEvent → Bool
  | AllocEvent.blockResident _ => false
  | _ => true

/-- Buffer events of one block of phase 1: one resized tile buffer per
member tile, then the block's processed tiles resident during its
composite-to-file. -/
def blockAllocs (X Y T bx bY : Nat) : List AllocEvent :=
  List.replicate (blockW X bx * blockW Y bY) (AllocEvent.tileBuffer T T) ++
    [AllocEvent.blockResident (blockW X bx * T * (blockW Y bY * T))]

/-- All pixel-buffer events of composing an X-by-Y grid of T-sized tiles:
phase 1 block events in blockY-major order, then the inputs of every
horizontal merge, then the inputs of every vertical merge. -/
def composeAllocs (X Y T : Nat) : List AllocEvent :=
  ((List.range (blocksAlong Y)).flatMap (fun bY =>
      (List.range (blocksAlong X)).flatMap (fun bx => blockAllocs X Y T bx bY))) ++
  ((hTraces X Y T).flatMap (fun p =>
      [AllocEvent.mergeInput p.1.width p.1.height,
       AllocEvent.mergeInput p.2.width p.2.height])) ++
  ((vTrace X Y T).flatMap (fun p =>
      [AllocEvent.mergeInput p.1.width p.1.height,
       AllocEvent.mergeInput p.2.width p.2.height]))

-- ===================================================================
-- GeoTileMath (index.js lines 404-414).
-- ===================================================================

/-- lat2tile (lines 404-414), over the reals: the floor of the standard
Web-Mercator slippy-tile formula.  The source performs no latitude
validation whatsoever; the function is total and returns a plain number
for every input latitude. -/
noncomputable def lat2tile (lat : ℝ) (zoom : Nat) : ℤ :=
  ⌊((1 - Real.log (Real.tan (lat * Real.pi / 180) +
      1 / Real.cos (lat * Real.pi / 180)) / Real.pi) / 2) * 2 ^ zoom⌋

inductive GeoError where
  | invalidLatitude
deriving DecidableEq

/-- The Mercator validity limit named by the spec (about 85.05 degrees). -/
noncomputable def mercatorLimit : ℝ := 85.05

/-- lat2tile with its result written in the error-aware shape used by the
spec's taxonomy.  Translated from the source: lines 404-414 contain no
check and no throw, so every input maps to ok. -/
noncomputable def lat2tileE (lat : ℝ) (zoom : Nat) : Except GeoError ℤ :=
  Except.ok (lat2tile lat zoom)

open Classical in
/-- Modelled from the spec: latitudeToTileY is valid only for latitudes
strictly below the Mercator limit in absolute value and fails with
InvalidLatitude outside that range, instead of returning a silently wrong
index; inside the range it returns the floor of the standard formula. -/
noncomputable def latitudeToTileYSpec (lat : ℝ) (zoom : Nat) : Except GeoError ℤ :=
  if |lat| < mercatorLimit then
    Except.ok ⌊((1 - Real.log (Real.tan (lat * Real.pi / 180) +
        1 / Real.cos (lat * Real.pi / 180)) / Real.pi) / 2) * 2 ^ zoom⌋
  else Except.error GeoError.invalidLatitude

-- ===================================================================
-- TileRange and the 3x3 expansion (index.js lines 552-606).
-- ===================================================================

/-- An inclusive tile index rectangle at a fixed zoom. -/
structure TileRange where
  minX : ℤ
  maxX : ℤ
  minY : ℤ
  maxY : ℤ
  zoom : Nat
deriving DecidableEq

/-- numTilesX = maxTileX - minTileX + 1 (line 558). -/
def TileRange.width (r : TileRange) : ℤ := r.maxX - r.minX + 1

/-- numTilesY = maxTileY - minTileY + 1 (line 559). -/
def TileRange.height (r : TileRange) : ℤ := r.maxY - r.minY + 1

/-- tileCount = numTilesX * numTilesY (line 560). -/
def computeTileCount (r : TileRange) : ℤ := r.width * r.height

/-- The 3x3 expansion (lines 589-592): the same width is added on each
side in X and the same height on each side in Y, at the same zoom. -/
def expandToGrid (r : TileRange) : TileRange :=
  ⟨r.minX - r.width, r.maxX + r.width, r.minY - r.height, r.maxY + r.height, r.zoom⟩

-- ===================================================================
-- Tile cache / fetcher (index.js lines 493-529).
-- ===================================================================

/-- A tile request key: within one run the provider is fixed and the
cache key is (zoom, x, y) (getTileCachePath, lines 460-463). -/
structure TileCoord where
  x : ℤ
  y : ℤ
  zoom : Nat
deriving DecidableEq

/-- The persistent tile store plus the process-wide cacheStats counters
(line 493), and an instrumentation count of provider network calls. -/
structure CacheSt where
  store : List (TileCoord × Nat)
  hits : Nat
  misses : Nat
  netCalls : Nat
deriving DecidableEq

/-- The external world of one run: provider responses (none means the
download fails), whether a cache read succeeds when the file exists,
whether a cache write succeeds, and whether the image library operations
succeed (a single flag: the first compose aborts when false). -/
structure FetchEnv where
  net : TileCoord → Option Nat
  readOk : TileCoord → Bool
  persistOk : TileCoord → Bool
  composeOk : Bool

/-- Association-list lookup standing for fs.existsSync plus the stored
bytes at the cache path. -/
def lookupTile : List (TileCoord × Nat) → TileCoord → Option Nat
  | [], _ => none
  | e :: rest, c => if e.1 = c then some e.2 else lookupTile rest c

/-- The download branch of getMapTile (lines 509-528): misses is
incremented, the provider is called, a successful download is best-effort
persisted (a persist failure is swallowed, line 519-522), and a failed
download propagates an error. -/
def downloadTile (env : FetchEnv) (st : CacheSt) (c : TileCoord) :
    Except Unit Nat × CacheSt :=
  let st1 : CacheSt := { st with misses := st.misses + 1 }
  match env.net c with
  | some b =>
      let st2 : CacheSt := { st1 with netCalls := st1.netCalls + 1 }
      let st3 : CacheSt :=
        if env.persistOk c then { st2 with store := (c, b) :: st2.store } else st2
      (Except.ok b, st3)
  | none => (Except.error (), { st1 with netCalls := st1.netCalls + 1 })

/-- getMapTile (lines 495-529).  If the cache file exists, hits is
incremented BEFORE the read is attempted (lines 500-502); if the read
then fails the code falls through to the download branch (lines 503-506),
where misses is incremented as well. -/
def getMapTile (env : FetchEnv) (st : CacheSt) (c : TileCoord) :
    Except Unit Nat × CacheSt :=
  match lookupTile st.store c with
  | some b =>
      let st1 : CacheSt := { st with hits := st.hits + 1 }
      if env.readOk c then (Except.ok b, st1) else downloadTile env st1 c
  | none => downloadTile env st c

-- ===================================================================
-- Orchestrator (index.js lines 539-820).
-- ===================================================================

/-- One configured area after the geographic-to-tile transform: its name
and the center tile range computed at lines 553-560.  (The transform
itself is the real-valued GeoTileMath above; the orchestrator claims are
about everything downstream of the computed range.) -/
structure AreaInput where
  name : Nat
  center : TileRange
deriving DecidableEq

/-- The CONFIG fields the orchestrator reads. -/
structure Config where
  use3x3Grid : Bool
  maxTiles : ℤ
  zoom : Nat
deriving DecidableEq

/-- totalTileCount (line 565): centerTileCount * 9 when the 3x3 grid is
enabled, otherwise the center count. -/
def totalTileCount (cfg : Config) (a : AreaInput) : ℤ :=
  if cfg.use3x3Grid then computeTileCount a.center * 9 else computeTileCount a.center

/-- The range actually downloaded (lines 586-606): the 3x3 expansion when
enabled, the center range otherwise. -/
def finalRange (cfg : Config) (a : AreaInput) : TileRange :=
  if cfg.use3x3Grid then expandToGrid a.center else a.center

/-- The inclusive integer interval [lo, hi] as a list (the for loops over
tile indices). -/
def intRange (lo hi : ℤ) : List ℤ :=
  (List.range (hi + 1 - lo).toNat).map (fun (i : Nat) => lo + (i : ℤ))

/-- Math.ceil(n / BLOCK_SIZE_TILES) for the number of blocks along an
axis of n tiles (lines 626-627); nonpositive n yields zero blocks. -/
def numBlocksI (n : ℤ) : Nat := ((n + 9) / 10).toNat

/-- The member tile coordinates of block (bx, bY) (lines 633-649):
y runs over [startTileY, endTileY] outer, x over [startTileX, endTileX]
inner, matching the push order of getMapTile calls. -/
def blockCoords (z : Nat) (fr : TileRange) (bx bY : Nat) : List TileCoord :=
  let startX := fr.minX + (bx : ℤ) * 10
  let endX := min (startX + 9) fr.maxX
  let startY := fr.minY + (bY : ℤ) * 10
  let endY := min (startY + 9) fr.maxY
  (intRange startY endY).flatMap
    (fun y => (intRange startX endX).map (fun x => ⟨x, y, z⟩))

/-- The blocks in processing order: blockY outer, blockX inner
(lines 630-631). -/
def blocksList (fr : TileRange) : List (Nat × Nat) :=
  (List.range (numBlocksI fr.height)).flatMap
    (fun bY => (List.range (numBlocksI fr.width)).map (fun bx => (bx, bY)))

/-- Fetch every member tile of one block (lines 644-650).  The loop
pushes a getMapTile call per coordinate before Promise.all is awaited, so
every coordinate of the block is requested (and counted) even when one of
them fails; the block fails if any tile fails. -/
def fetchBlock (env : FetchEnv) : CacheSt → List TileCoord → Bool × CacheSt
  | st, [] => (true, st)
  | st, c :: cs =>
      let r := getMapTile env st c
      let s := fetchBlock env r.2 cs
      (r.1.toBool && s.1, s.2)

inductive AreaErr where
  | fetchErr
  | composeErr
deriving DecidableEq

/-- Phase 1 over the block list (lines 630-695): blocks are processed in
order; a failed tile download rejects the block's Promise.all and the
area aborts with a fetch error; otherwise the block image is composited
to a file, which aborts the area with a compose error when the image
library fails.  The trace collects every coordinate passed to getMapTile. -/
def runBlocks (env : FetchEnv) (z : Nat) (fr : TileRange) :
    CacheSt → List (Nat × Nat) → Except AreaErr Unit × CacheSt × List TileCoord
  | st, [] => (Except.ok (), st, [])
  | st, b :: rest =>
      let coords := blockCoords z fr b.1 b.2
      let f := fetchBlock env st coords
      if f.1 then
        if env.composeOk then
          let r := runBlocks env z fr f.2 rest
          (r.1, r.2.1, coords ++ r.2.2)
        else (Except.error AreaErr.composeErr, f.2, coords)
      else (Except.error AreaErr.fetchErr, f.2, coords)

inductive AreaOutcome where
  | tooLarge
  | fetchFailed
  | composeFailed
  | success
deriving DecidableEq

/-- Observable facts about one area's processing. -/
structure AreaResult where
  outcome : AreaOutcome
  requested : List TileCoord
  tempCreated : Bool
  tempCleaned : Bool
  outputWritten : Bool
deriving DecidableEq

/-- One iteration of the per-area loop body (lines 540-819).
The pre-flight ceiling check (lines 569-581) runs before the temp folder
is created and before any getMapTile call; it ends in process.exit(1)
(line 580).  Otherwise the temp folder is created (line 616), phase 1
runs, and on success phases 2-3 merge file-to-file, the final file is
copied to the output path (line 809) and ONLY THEN the temp folder is
removed (line 813); the catch block (lines 817-819) merely logs, so a
fetch or compose failure leaves the temp folder in place and writes no
output. -/
def outcomeOf : Except AreaErr Unit → AreaOutcome
  | Except.error AreaErr.fetchErr => AreaOutcome.fetchFailed
  | Except.error AreaErr.composeErr => AreaOutcome.composeFailed
  | Except.ok _ => AreaOutcome.success

def processAreaCore (cfg : Config) (env : FetchEnv) (st : CacheSt) (a : AreaInput) :
    AreaResult × CacheSt :=
  if totalTileCount cfg a > cfg.maxTiles then
    (⟨AreaOutcome.tooLarge, [], false, false, false⟩, st)
  else
    let fr := finalRange cfg a
    let r := runBlocks env cfg.zoom fr st (blocksList fr)
    (⟨outcomeOf r.1, r.2.2, true, r.1.isOk, r.1.isOk⟩, r.2.1)

/-- The batch loop (lines 539-820).  A caught per-area error continues
with the next area, but the tooLarge branch calls process.exit(1), which
terminates the whole process: no later area is processed. -/
def runBatch (cfg : Config) (env : FetchEnv) :
    CacheSt → List AreaInput → List (Nat × AreaResult)
  | _, [] => []
  | st, a :: rest =>
      let r := processAreaCore cfg env st a
      if r.1.outcome = AreaOutcome.tooLarge then [(a.name, r.1)]
      else (a.name, r.1) :: runBatch cfg env r.2 rest

/-- A coordinate lies inside the zoom level's tile grid. -/
def inGrid (z : Nat) (c : TileCoord) : Prop :=
  0 ≤ c.x ∧ c.x < 2 ^ z ∧ 0 ≤ c.y ∧ c.y < 2 ^ z

instance (z : Nat) (c : TileCoord) : Decidable (inGrid z c) := by
  unfold inGrid
  infer_instance

-- ===================================================================
-- Concrete instances used by witnesses and counterexamples.
-- ===================================================================

/-- An environment with every download succeeding (bytes 7), reliable
cache reads and writes, and a working image library. -/
def envAll : FetchEnv := ⟨fun _ => some 7, fun _ => true, fun _ => true, true⟩

/-- An environment in which every provider download fails. -/
def envNoNet : FetchEnv := ⟨fun _ => none, fun _ => true, fun _ => true, true⟩

/-- An environment in which cache files exist but reading them throws. -/
def envBadRead : FetchEnv := ⟨fun _ => some 5, fun _ => false, fun _ => true, true⟩

/-- The empty initial cache state. -/
def st0 : CacheSt := ⟨[], 0, 0, 0⟩

def coordC : TileCoord := ⟨0, 0, 5⟩

/-- A cache state already holding bytes for coordC. -/
def stPre : CacheSt := ⟨[(coordC, 3)], 0, 0, 0⟩

/-- 3x3 grid enabled, generous ceiling, zoom 5. -/
def cfgGrid : Config := ⟨true, 1000, 5⟩

/-- 3x3 grid enabled, ceiling 10 tiles, zoom 5. -/
def cfgLimit10 : Config := ⟨true, 10, 5⟩

/-- 3x3 grid enabled, generous ceiling, zoom 1. -/
def cfgZ1 : Config := ⟨true, 1000, 1⟩

/-- A 2x2-tile center range well inside the zoom-5 grid. -/
def areaSmall : AreaInput := ⟨1, ⟨8, 9, 8, 9, 5⟩⟩

/-- A 1x1-tile center range at the zoom-5 grid origin-ish position. -/
def areaB2 : AreaInput := ⟨2, ⟨0, 0, 0, 0, 5⟩⟩

/-- A 1x1-tile center range at the corner of the zoom-1 grid: its 3x3
expansion sticks out of the grid on the top and left. -/
def areaEdge : AreaInput := ⟨3, ⟨0, 0, 0, 0, 1⟩⟩

-- ===================================================================
-- Helper lemmas: pairwise reduction.
-- ===================================================================

theorem reduceLevelT_len (m : Dim → Dim → Dim) :
    ∀ l : List Dim, ((reduceLevelT m l).1).length = (l.length + 1) / 2
  | [] => by simp [reduceLevelT]
  | [a] => by simp [reduceLevelT]
  | a :: b :: rest => by
      simp only [reduceLevelT, List.length_cons]
      rw [reduceLevelT_len m rest]
      omega

theorem reduceAllAux_len_one (m : Dim → Dim → Dim) :
    ∀ (fuel : Nat) (l : List Dim), l.length ≤ fuel → l ≠ [] →
      ((reduceAllAux m fuel l).1).length = 1
  | 0, l, hf, hne => absurd (List.length_eq_zero.mp (Nat.le_zero.mp hf)) hne
  | fuel + 1, l, hf, hne => by
      by_cases h1 : l.length ≤ 1
      · have : l.length = 1 := by
          have := List.length_pos.mpr hne
          omega
        simp [reduceAllAux, h1, this]
      · have hlen := reduceLevelT_len m l
        have hne2 : (reduceLevelT m l).1 ≠ [] := by
          intro hc
          rw [hc] at hlen
          simp at hlen
          omega
        have hle2 : ((reduceLevelT m l).1).length ≤ fuel := by
          rw [hlen]
          simp only [List.length_eq_zero] at *
          omega
        have := reduceAllAux_len_one m fuel (reduceLevelT m l).1 hle2 hne2
        simp [reduceAllAux, h1]
        exact this

theorem hLevel_inv (h w0 : Nat) :
    ∀ l : List Dim, (∀ d ∈ l, d.height = h ∧ w0 ≤ d.width) →
      (∀ d ∈ (reduceLevelT hMerge l).1, d.height = h ∧ w0 ≤ d.width) ∧
      (((reduceLevelT hMerge l).1).map Dim.width).sum = (l.map Dim.width).sum ∧
      (∀ p ∈ (reduceLevelT hMerge l).2,
        p.1.height = h ∧ p.2.height = h ∧ w0 ≤ p.1.width ∧ w0 ≤ p.2.width ∧
        p.1.width + p.2.width ≤ (l.map Dim.width).sum)
  | [] => by intro hl; simp [reduceLevelT]
  | [a] => by
      intro hl
      refine ⟨?_, by simp [reduceLevelT], by simp [reduceLevelT]⟩
      intro d hd
      simp only [reduceLevelT] at hd
      exact hl d hd
  | a :: b :: rest => by
      intro hl
      have ha := hl a (by simp)
      have hb := hl b (by simp)
      have hrest : ∀ d ∈ rest, d.height = h ∧ w0 ≤ d.width :=
        fun d hd => hl d (by simp [hd])
      obtain ⟨ih1, ih2, ih3⟩ := hLevel_inv h w0 rest hrest
      refine ⟨?_, ?_, ?_⟩
      · intro d hd
        simp only [reduceLevelT, List.mem_cons] at hd
        rcases hd with rfl | hd
        · refine ⟨ha.1, ?_⟩
          simp only [hMerge]
          omega
        · exact ih1 d hd
      · simp only [reduceLevelT, List.map_cons, List.sum_cons, hMerge]
        rw [ih2]
        omega
      · intro p hp
        simp only [reduceLevelT, List.mem_cons] at hp
        rcases hp with rfl | hp
        · refine ⟨ha.1, hb.1, ha.2, hb.2, ?_⟩
          simp only [List.map_cons, List.sum_cons]
          omega
        · have hr := ih3 p hp
          refine ⟨hr.1, hr.2.1, hr.2.2.1, hr.2.2.2.1, le_trans hr.2.2.2.2 ?_⟩
          simp only [List.map_cons, List.sum_cons]
          omega

theorem hAll_inv (h w0 : Nat) :
    ∀ (fuel : Nat) (l : List Dim), (∀ d ∈ l, d.height = h ∧ w0 ≤ d.width) →
      (∀ d ∈ (reduceAllAux hMerge fuel l).1, d.height = h ∧ w0 ≤ d.width) ∧
      (((reduceAllAux hMerge fuel l).1).map Dim.width).sum = (l.map Dim.width).sum ∧
      (∀ p ∈ (reduceAllAux hMerge fuel l).2,
        p.1.height = h ∧ p.2.height = h ∧ w0 ≤ p.1.width ∧ w0 ≤ p.2.width ∧
        p.1.width + p.2.width ≤ (l.map Dim.width).sum)
  | 0, l, hl => ⟨hl, rfl, by simp [reduceAllAux]⟩
  | fuel + 1, l, hl => by
      by_cases h1 : l.length ≤ 1
      · refine ⟨?_, by simp [reduceAllAux, h1], by simp [reduceAllAux, h1]⟩
        intro d hd
        simp only [reduceAllAux, h1, if_true] at hd
        exact hl d hd
      · obtain ⟨lev1, lev2, lev3⟩ := hLevel_inv h w0 l hl
        obtain ⟨ih1, ih2, ih3⟩ := hAll_inv h w0 fuel (reduceLevelT hMerge l).1 lev1
        refine ⟨?_, ?_, ?_⟩
        · intro d hd
          simp only [reduceAllAux, h1, if_false] at hd
          exact ih1 d hd
        · simp only [reduceAllAux, h1, if_false]
          exact ih2.trans lev2
        · intro p hp
          simp only [reduceAllAux, h1, if_false, List.mem_append] at hp
          rcases hp with hp | hp
          · exact lev3 p hp
          · have hr := ih3 p hp
            exact ⟨hr.1, hr.2.1, hr.2.2.1, hr.2.2.2.1, le_of_le_of_eq hr.2.2.2.2 lev2⟩

theorem vLevel_inv (w h0 : Nat) :
    ∀ l : List Dim, (∀ d ∈ l, d.width = w ∧ h0 ≤ d.height) →
      (∀ d ∈ (reduceLevelT vMerge l).1, d.width = w ∧ h0 ≤ d.height) ∧
      (((reduceLevelT vMerge l).1).map Dim.height).sum = (l.map Dim.height).sum ∧
      (∀ p ∈ (reduceLevelT vMerge l).2,
        p.1.width = w ∧ p.2.width = w ∧ h0 ≤ p.1.height ∧ h0 ≤ p.2.height ∧
        p.1.height + p.2.height ≤ (l.map Dim.height).sum)
  | [] => by intro hl; simp [reduceLevelT]
  | [a] => by
      intro hl
      refine ⟨?_, by simp [reduceLevelT], by simp [reduceLevelT]⟩
      intro d hd
      simp only [reduceLevelT] at hd
      exact hl d hd
  | a :: b :: rest => by
      intro hl
      have ha := hl a (by simp)
      have hb := hl b (by simp)
      have hrest : ∀ d ∈ rest, d.width = w ∧ h0 ≤ d.height :=
        fun d hd => hl d (by simp [hd])
      obtain ⟨ih1, ih2, ih3⟩ := vLevel_inv w h0 rest hrest
      refine ⟨?_, ?_, ?_⟩
      · intro d hd
        simp only [reduceLevelT, List.mem_cons] at hd
        rcases hd with rfl | hd
        · refine ⟨ha.1, ?_⟩
          simp only [vMerge]
          omega
        · exact ih1 d hd
      · simp only [reduceLevelT, List.map_cons, List.sum_cons, vMerge]
        rw [ih2]
        omega
      · intro p hp
        simp only [reduceLevelT, List.mem_cons] at hp
        rcases hp with rfl | hp
        · refine ⟨ha.1, hb.1, ha.2, hb.2, ?_⟩
          simp only [List.map_cons, List.sum_cons]
          omega
        · have hr := ih3 p hp
          refine ⟨hr.1, hr.2.1, hr.2.2.1, hr.2.2.2.1, le_trans hr.2.2.2.2 ?_⟩
          simp only [List.map_cons, List.sum_cons]
          omega

theorem vAll_inv (w h0 : Nat) :
    ∀ (fuel : Nat) (l : List Dim), (∀ d ∈ l, d.width = w ∧ h0 ≤ d.height) →
      (∀ d ∈ (reduceAllAux vMerge fuel l).1, d.width = w ∧ h0 ≤ d.height) ∧
      (((reduceAllAux vMerge fuel l).1).map Dim.height).sum = (l.map Dim.height).sum ∧
      (∀ p ∈ (reduceAllAux vMerge fuel l).2,
        p.1.width = w ∧ p.2.width = w ∧ h0 ≤ p.1.height ∧ h0 ≤ p.2.height ∧
        p.1.height + p.2.height ≤ (l.map Dim.height).sum)
  | 0, l, hl => ⟨hl, rfl, by simp [reduceAllAux]⟩
  | fuel + 1, l, hl => by
      by_cases h1 : l.length ≤ 1
      · refine ⟨?_, by simp [reduceAllAux, h1], by simp [reduceAllAux, h1]⟩
        intro d hd
        simp only [reduceAllAux, h1, if_true] at hd
        exact hl d hd
      · obtain ⟨lev1, lev2, lev3⟩ := vLevel_inv w h0 l hl
        obtain ⟨ih1, ih2, ih3⟩ := vAll_inv w h0 fuel (reduceLevelT vMerge l).1 lev1
        refine ⟨?_, ?_, ?_⟩
        · intro d hd
          simp only [reduceAllAux, h1, if_false] at hd
          exact ih1 d hd
        · simp only [reduceAllAux, h1, if_false]
          exact ih2.trans lev2
        · intro p hp
          simp only [reduceAllAux, h1, if_false, List.mem_append] at hp
          rcases hp with hp | hp
          · exact lev3 p hp
          · have hr := ih3 p hp
            exact ⟨hr.1, hr.2.1, hr.2.2.1, hr.2.2.2.1, le_of_le_of_eq hr.2.2.2.2 lev2⟩

-- ===================================================================
-- Helper lemmas: block partition arithmetic.
-- ===================================================================

theorem blocksAlong_pos {n : Nat} (hn : 0 < n) : 0 < blocksAlong n := by
  unfold blocksAlong BLOCK
  omega

theorem blockW_pos {n bx : Nat} (hbx : bx < blocksAlong n) : 0 < blockW n bx := by
  unfold blocksAlong BLOCK at hbx
  have h1 : ((n + 9) / 10) * 10 ≤ n + 9 := Nat.div_mul_le_self _ _
  have h2 : (bx + 1) * 10 ≤ ((n + 9) / 10) * 10 := Nat.mul_le_mul_right 10 hbx
  unfold blockW BLOCK
  omega

theorem blockW_le_BLOCK (n bx : Nat) : blockW n bx ≤ BLOCK := min_le_left _ _

theorem blockW_le (n bx : Nat) : blockW n bx ≤ n := by
  unfold blockW
  have := min_le_right BLOCK (n - bx * BLOCK)
  omega

theorem blockSum : ∀ n : Nat, 0 < n →
    ((List.range (blocksAlong n)).map (fun i => blockW n i)).sum = n := by
  intro n
  induction n using Nat.strong_induction_on with
  | _ n ih =>
    intro hn
    by_cases hle : n ≤ 10
    · have h1 : blocksAlong n = 1 := by unfold blocksAlong BLOCK; omega
      rw [h1]
      have hr1 : List.range 1 = [0] := rfl
      rw [hr1]
      simp only [List.map_cons, List.map_nil, List.sum_cons, List.sum_nil]
      unfold blockW BLOCK
      omega
    · have h2 : blocksAlong n = blocksAlong (n - 10) + 1 := by
        unfold blocksAlong BLOCK
        omega
      have hW : ∀ i, blockW n (i + 1) = blockW (n - 10) i := by
        intro i
        unfold blockW BLOCK
        congr 1
        omega
      rw [h2, List.range_succ_eq_map]
      simp only [List.map_cons, List.sum_cons, List.map_map]
      have hmap : (List.range (blocksAlong (n - 10))).map ((fun i => blockW n i) ∘ Nat.succ) =
          (List.range (blocksAlong (n - 10))).map (fun i => blockW (n - 10) i) := by
        apply List.map_congr_left
        intro i _
        exact hW i
      rw [hmap, ih (n - 10) (by omega) (by omega)]
      unfold blockW BLOCK
      omega

-- ===================================================================
-- Helper lemmas: the composed mosaic dimensions.
-- ===================================================================

theorem rowDims_widths (X Y T bY : Nat) :
    ((rowDims X Y T bY).map Dim.width).sum = X * T ∨ (X = 0 ∧ ((rowDims X Y T bY).map Dim.width).sum = 0) := by
  by_cases hX : 0 < X
  · left
    unfold rowDims
    rw [List.map_map]
    have : (Dim.width ∘ fun bx => Dim.mk (blockW X bx * T) (blockW Y bY * T)) =
        fun bx => blockW X bx * T := rfl
    rw [this, List.sum_map_mul_right, blockSum X hX]
  · right
    constructor
    · omega
    · have hz : X = 0 := by omega
      subst hz
      simp [rowDims, blocksAlong, BLOCK, blockW]

theorem rowDims_inv (X Y T bY : Nat) :
    ∀ d ∈ rowDims X Y T bY, d.height = blockW Y bY * T ∧ T ≤ d.width := by
  intro d hd
  unfold rowDims at hd
  obtain ⟨bx, hbx, rfl⟩ := List.mem_map.mp hd
  refine ⟨rfl, ?_⟩
  have h1 : 0 < blockW X bx := blockW_pos (List.mem_range.mp hbx)
  calc T = 1 * T := (one_mul T).symm
    _ ≤ blockW X bx * T := Nat.mul_le_mul_right T h1

theorem rowDims_ne_nil (X Y T bY : Nat) (hX : 0 < X) : rowDims X Y T bY ≠ [] := by
  unfold rowDims
  have h1 : 0 < blocksAlong X := blocksAlong_pos hX
  intro hc
  have := congrArg List.length hc
  simp at this
  omega

theorem reduceAllT_len_one (m : Dim → Dim → Dim) (l : List Dim) (hne : l ≠ []) :
    ((reduceAllT m l).1).length = 1 :=
  reduceAllAux_len_one m l.length l le_rfl hne

theorem rowArtifact_eq (X Y T bY : Nat) (hX : 0 < X) :
    (reduceAllT hMerge (rowDims X Y T bY)).1 = [⟨X * T, blockW Y bY * T⟩] ∧
    rowArtifact X Y T bY = ⟨X * T, blockW Y bY * T⟩ := by
  have hlen1 := reduceAllT_len_one hMerge (rowDims X Y T bY) (rowDims_ne_nil X Y T bY hX)
  obtain ⟨d, hd⟩ := List.length_eq_one.mp hlen1
  have hl : ∀ e ∈ rowDims X Y T bY, e.height = blockW Y bY * T ∧ 0 ≤ e.width :=
    fun e he => ⟨(rowDims_inv X Y T bY e he).1, Nat.zero_le _⟩
  obtain ⟨inv1, inv2, _⟩ :=
    hAll_inv (blockW Y bY * T) 0 (rowDims X Y T bY).length (rowDims X Y T bY) hl
  have hsum : ((rowDims X Y T bY).map Dim.width).sum = X * T := by
    rcases rowDims_widths X Y T bY with hs | ⟨hz, _⟩
    · exact hs
    · omega
  have hdh : d.height = blockW Y bY * T := by
    have : d ∈ (reduceAllT hMerge (rowDims X Y T bY)).1 := by
      rw [hd]
      simp
    exact (inv1 d this).1
  have hdw : d.width = X * T := by
    have h2 : (((reduceAllT hMerge (rowDims X Y T bY)).1).map Dim.width).sum =
        ((rowDims X Y T bY).map Dim.width).sum := inv2
    rw [hd] at h2
    simp at h2
    rw [h2, hsum]
  have hdd : d = ⟨X * T, blockW Y bY * T⟩ := by
    cases d
    simp at hdh hdw
    rw [hdh, hdw]
  refine ⟨by rw [hd, hdd], ?_⟩
  unfold rowArtifact
  rw [hd, hdd]
  rfl

theorem rowsDims_eq (X Y T : Nat) (hX : 0 < X) :
    rowsDims X Y T = (List.range (blocksAlong Y)).map
      (fun bY => ⟨X * T, blockW Y bY * T⟩) := by
  unfold rowsDims
  apply List.map_congr_left
  intro bY _
  exact (rowArtifact_eq X Y T bY hX).2

theorem rowsDims_inv (X Y T : Nat) (hX : 0 < X) :
    ∀ d ∈ rowsDims X Y T, d.width = X * T ∧ T ≤ d.height := by
  intro d hd
  rw [rowsDims_eq X Y T hX] at hd
  obtain ⟨bY, hbY, rfl⟩ := List.mem_map.mp hd
  refine ⟨rfl, ?_⟩
  have h1 : 0 < blockW Y bY := blockW_pos (List.mem_range.mp hbY)
  calc T = 1 * T := (one_mul T).symm
    _ ≤ blockW Y bY * T := Nat.mul_le_mul_right T h1

theorem rowsDims_heights (X Y T : Nat) (hX : 0 < X) (hY : 0 < Y) :
    ((rowsDims X Y T).map Dim.height).sum = Y * T := by
  rw [rowsDims_eq X Y T hX, List.map_map]
  have : (Dim.height ∘ fun bY => Dim.mk (X * T) (blockW Y bY * T)) =
      fun bY => blockW Y bY * T := rfl
  rw [this, List.sum_map_mul_right, blockSum Y hY]

theorem rowsDims_ne_nil (X Y T : Nat) (hY : 0 < Y) : rowsDims X Y T ≠ [] := by
  unfold rowsDims
  have h1 : 0 < blocksAlong Y := blocksAlong_pos hY
  intro hc
  have := congrArg List.length hc
  simp at this
  omega

theorem finalDim_eq (X Y T : Nat) (hX : 0 < X) (hY : 0 < Y) :
    finalDim X Y T = ⟨X * T, Y * T⟩ := by
  have hlen1 := reduceAllT_len_one vMerge (rowsDims X Y T) (rowsDims_ne_nil X Y T hY)
  obtain ⟨d, hd⟩ := List.length_eq_one.mp hlen1
  have hl : ∀ e ∈ rowsDims X Y T, e.width = X * T ∧ 0 ≤ e.height :=
    fun e he => ⟨(rowsDims_inv X Y T hX e he).1, Nat.zero_le _⟩
  obtain ⟨inv1, inv2, _⟩ :=
    vAll_inv (X * T) 0 (rowsDims X Y T).length (rowsDims X Y T) hl
  have hdw : d.width = X * T := by
    have : d ∈ (reduceAllT vMerge (rowsDims X Y T)).1 := by
      rw [hd]
      simp
    exact (inv1 d this).1
  have hdh : d.height = Y * T := by
    have h2 : (((reduceAllT vMerge (rowsDims X Y T)).1).map Dim.height).sum =
        ((rowsDims X Y T).map Dim.height).sum := inv2
    rw [hd] at h2
    simp at h2
    rw [h2, rowsDims_heights X Y T hX hY]
  unfold finalDim
  rw [hd]
  cases d
  simp at hdw hdh
  rw [List.headI, hdw, hdh]

theorem hTraces_pair (X Y T : Nat) (p : Dim × Dim) (hp : p ∈ hTraces X Y T) :
    ∃ bY, bY < blocksAlong Y ∧
      p.1.height = blockW Y bY * T ∧ p.2.height = blockW Y bY * T ∧
      T ≤ p.1.width ∧ T ≤ p.2.width ∧ p.1.width + p.2.width ≤ X * T := by
  unfold hTraces at hp
  obtain ⟨bY, hbY, hmem⟩ := List.mem_flatMap.mp hp
  refine ⟨bY, List.mem_range.mp hbY, ?_⟩
  have hl : ∀ e ∈ rowDims X Y T bY, e.height = blockW Y bY * T ∧ T ≤ e.width :=
    rowDims_inv X Y T bY
  obtain ⟨_, _, inv3⟩ :=
    hAll_inv (blockW Y bY * T) T (rowDims X Y T bY).length (rowDims X Y T bY) hl
  have hr := inv3 p hmem
  have hsum : ((rowDims X Y T bY).map Dim.width).sum ≤ X * T := by
    rcases rowDims_widths X Y T bY with hs | ⟨_, hz⟩
    · omega
    · omega
  exact ⟨hr.1, hr.2.1, hr.2.2.1, hr.2.2.2.1, le_trans hr.2.2.2.2 hsum⟩

theorem vTrace_pair (X Y T : Nat) (hX : 0 < X) (hY : 0 < Y) (p : Dim × Dim)
    (hp : p ∈ vTrace X Y T) :
    p.1.width = X * T ∧ p.2.width = X * T ∧
    T ≤ p.1.height ∧ T ≤ p.2.height ∧ p.1.height + p.2.height ≤ Y * T := by
  unfold vTrace at hp
  obtain ⟨_, _, inv3⟩ :=
    vAll_inv (X * T) T (rowsDims X Y T).length (rowsDims X Y T) (rowsDims_inv X Y T hX)
  have hr := inv3 p hp
  have hsum := rowsDims_heights X Y T hX hY
  exact ⟨hr.1, hr.2.1, hr.2.2.1, hr.2.2.2.1, by omega⟩

-- ===================================================================
-- Helper lemmas: expansion counts and the orchestrator.
-- ===================================================================

theorem expand_count (r : TileRange) :
    computeTileCount (expandToGrid r) = 9 * computeTileCount r := by
  unfold computeTileCount expandToGrid TileRange.width TileRange.height
  ring

theorem totalTileCount_eq_final (cfg : Config) (a : AreaInput) :
    totalTileCount cfg a = computeTileCount (finalRange cfg a) := by
  unfold totalTileCount finalRange
  by_cases hg : cfg.use3x3Grid
  · simp [hg, expand_count]
    ring
  · simp [hg]

theorem processAreaCore_tooLarge_eq (cfg : Config) (env : FetchEnv) (st : CacheSt)
    (a : AreaInput) (h : totalTileCount cfg a > cfg.maxTiles) :
    processAreaCore cfg env st a =
      (⟨AreaOutcome.tooLarge, [], false, false, false⟩, st) := by
  unfold processAreaCore
  rw [if_pos h]

theorem processAreaCore_not_large_eq (cfg : Config) (env : FetchEnv) (st : CacheSt)
    (a : AreaInput) (h : ¬ totalTileCount cfg a > cfg.maxTiles) :
    processAreaCore cfg env st a =
      (⟨outcomeOf (runBlocks env cfg.zoom (finalRange cfg a) st
            (blocksList (finalRange cfg a))).1,
        (runBlocks env cfg.zoom (finalRange cfg a) st
            (blocksList (finalRange cfg a))).2.2,
        true,
        (runBlocks env cfg.zoom (finalRange cfg a) st
            (blocksList (finalRange cfg a))).1.isOk,
        (runBlocks env cfg.zoom (finalRange cfg a) st
            (blocksList (finalRange cfg a))).1.isOk⟩,
       (runBlocks env cfg.zoom (finalRange cfg a) st
            (blocksList (finalRange cfg a))).2.1) := by
  unfold processAreaCore
  rw [if_neg h]

theorem outcomeOf_ne_tooLarge (r : Except AreaErr Unit) :
    outcomeOf r ≠ AreaOutcome.tooLarge := by
  rcases r with e | u
  · cases e <;> simp [outcomeOf]
  · simp [outcomeOf]

theorem processAreaCore_small_not_tooLarge (cfg : Config) (env : FetchEnv) (st : CacheSt)
    (a : AreaInput) (h : ¬ totalTileCount cfg a > cfg.maxTiles) :
    (processAreaCore cfg env st a).1.outcome ≠ AreaOutcome.tooLarge := by
  rw [processAreaCore_not_large_eq cfg env st a h]
  exact outcomeOf_ne_tooLarge _

theorem processAreaCore_tooLarge_only_if (cfg : Config) (env : FetchEnv) (st : CacheSt)
    (a : AreaInput) (h : (processAreaCore cfg env st a).1.outcome = AreaOutcome.tooLarge) :
    totalTileCount cfg a > cfg.maxTiles := by
  by_contra hc
  exact processAreaCore_small_not_tooLarge cfg env st a hc h

theorem mem_intRange {x lo hi : ℤ} (hx : x ∈ intRange lo hi) : lo ≤ x ∧ x ≤ hi := by
  unfold intRange at hx
  simp only [List.mem_map, List.mem_range] at hx
  obtain ⟨i, hi', rfl⟩ := hx
  omega

theorem mem_blockCoords {z : Nat} {fr : TileRange} {bx bY : Nat} {c : TileCoord}
    (hc : c ∈ blockCoords z fr bx bY) :
    fr.minX ≤ c.x ∧ c.x ≤ fr.maxX ∧ fr.minY ≤ c.y ∧ c.y ≤ fr.maxY ∧ c.zoom = z := by
  unfold blockCoords at hc
  obtain ⟨y, hy, hmem⟩ := List.mem_flatMap.mp hc
  obtain ⟨x, hx, rfl⟩ := List.mem_map.mp hmem
  obtain ⟨hy1, hy2⟩ := mem_intRange hy
  obtain ⟨hx1, hx2⟩ := mem_intRange hx
  have hbx : (0 : ℤ) ≤ (bx : ℤ) * 10 := by positivity
  have hbY : (0 : ℤ) ≤ (bY : ℤ) * 10 := by positivity
  have hminx : min (fr.minX + (bx : ℤ) * 10 + 9) fr.maxX ≤ fr.maxX := min_le_right _ _
  have hminy : min (fr.minY + (bY : ℤ) * 10 + 9) fr.maxY ≤ fr.maxY := min_le_right _ _
  refine ⟨?_, ?_, ?_, ?_, rfl⟩ <;> dsimp only <;> omega

theorem mem_runBlocks_trace (env : FetchEnv) (z : Nat) (fr : TileRange) :
    ∀ (bs : List (Nat × Nat)) (st : CacheSt) (c : TileCoord),
      c ∈ (runBlocks env z fr st bs).2.2 →
      ∃ b ∈ bs, c ∈ blockCoords z fr b.1 b.2
  | [], st, c, hc => by simp [runBlocks] at hc
  | b :: rest, st, c, hc => by
      unfold runBlocks at hc
      by_cases hf : (fetchBlock env st (blockCoords z fr b.1 b.2)).1
      · by_cases hok : env.composeOk
        · simp only [hf, hok, if_true] at hc
          rw [List.mem_append] at hc
          rcases hc with hc | hc
          · exact ⟨b, by simp, hc⟩
          · obtain ⟨b2, hb2, hmem⟩ := mem_runBlocks_trace env z fr rest
              (fetchBlock env st (blockCoords z fr b.1 b.2)).2 c hc
            exact ⟨b2, by simp [hb2], hmem⟩
        · simp only [hf, hok, if_true, if_false] at hc
          exact ⟨b, by simp, hc⟩
      · simp only [hf, if_false] at hc
        exact ⟨b, by simp, hc⟩

theorem mem_requested (cfg : Config) (env : FetchEnv) (st : CacheSt) (a : AreaInput)
    (c : TileCoord) (hc : c ∈ (processAreaCore cfg env st a).1.requested) :
    ∃ b ∈ blocksList (finalRange cfg a),
      c ∈ blockCoords cfg.zoom (finalRange cfg a) b.1 b.2 := by
  by_cases h : totalTileCount cfg a > cfg.maxTiles
  · rw [processAreaCore_tooLarge_eq cfg env st a h] at hc
    simp at hc
  · rw [processAreaCore_not_large_eq cfg env st a h] at hc
    exact mem_runBlocks_trace env cfg.zoom (finalRange cfg a)
      (blocksList (finalRange cfg a)) st c hc

-- ===================================================================
-- Claim theorems.
-- ===================================================================

/-- Claim C5: for every tile range, the 3x3 expansion returns the range
[minX-W, maxX+W] x [minY-H, maxY+H] at the same zoom, which is exactly 3
times as wide and 3 times as tall, with the original range as the exact
centered sub-block (margin W on each side in X and H on each side in Y),
and its tile count equals 9 times the original count. -/
theorem C5_expandToGrid_threefold (r : TileRange) :
    (expandToGrid r).width = 3 * r.width ∧
    (expandToGrid r).height = 3 * r.height ∧
    (expandToGrid r).zoom = r.zoom ∧
    (expandToGrid r).minX = r.minX - r.width ∧
    (expandToGrid r).maxX = r.maxX + r.width ∧
    (expandToGrid r).minY = r.minY - r.height ∧
    (expandToGrid r).maxY = r.maxY + r.height ∧
    computeTileCount (expandToGrid r) = 9 * computeTileCount r := by
  refine ⟨?_, ?_, rfl, rfl, rfl, rfl, rfl, ?_⟩
  · unfold expandToGrid TileRange.width
    dsimp only
    ring
  · unfold expandToGrid TileRange.height
    dsimp only
    ring
  · exact expand_count r

/-- Claim C3 counterexample: at latitude 86 (above the Mercator limit)
and zoom 3 the source conversion does NOT fail with InvalidLatitude as
claimed: it returns a numeric index, disagreeing with the spec-modelled
conversion, which errors there. -/
theorem C3_counterexample : lat2tileE 86 3 ≠ latitudeToTileYSpec 86 3 := by
  have h86 : ¬ (|(86 : ℝ)| < mercatorLimit) := by
    rw [mercatorLimit, abs_of_nonneg (by norm_num : (0 : ℝ) ≤ 86)]
    norm_num
  unfold lat2tileE latitudeToTileYSpec
  rw [if_neg h86]
  simp

/-- Claim C3 (amended): the source latitude conversion performs no
validation at all: for every latitude and zoom it returns ok of the
floor of the Web-Mercator formula and never fails with InvalidLatitude;
for latitudes strictly inside the Mercator limit it agrees with the
spec's conversion (the floor formula of the claim). -/
theorem C3_no_latitude_validation (lat : ℝ) (zoom : Nat) :
    (∀ e, lat2tileE lat zoom ≠ Except.error e) ∧
    (|lat| < mercatorLimit → lat2tileE lat zoom = latitudeToTileYSpec lat zoom) := by
  constructor
  · intro e
    unfold lat2tileE
    simp
  · intro h
    unfold lat2tileE latitudeToTileYSpec lat2tile
    rw [if_pos h]

/-- Witness for C3: at latitude 0 the hypotheses hold and the conversion
agrees with the spec version, returning ok rather than an error. -/
theorem C3_no_latitude_validation_witness :
    lat2tileE 0 7 = latitudeToTileYSpec 0 7 ∧
    lat2tileE 0 7 ≠ Except.error GeoError.invalidLatitude :=
  ⟨(C3_no_latitude_validation 0 7).2 (by rw [mercatorLimit]; simp; norm_num),
   (C3_no_latitude_validation 0 7).1 GeoError.invalidLatitude⟩

/-- Claim C4: composing any X-by-Y grid of uniformly T-sized tiles through
the block partition, the pairwise horizontal row reduction and the
pairwise vertical reduction yields a mosaic of width exactly X*T and
height exactly Y*T, for every block count including odd leftovers; every
horizontal merge's inputs have equal heights and its output is the exact
width sum at that height, and every vertical merge's inputs have equal
widths and its output is the exact height sum at that width. -/
theorem C4_mosaic_dimensions (X Y T : Nat) (hX : 1 ≤ X) (hY : 1 ≤ Y) :
    finalDim X Y T = ⟨X * T, Y * T⟩ ∧
    (∀ p ∈ hTraces X Y T,
      p.1.height = p.2.height ∧
      hMerge p.1 p.2 = ⟨p.1.width + p.2.width, p.1.height⟩) ∧
    (∀ p ∈ vTrace X Y T,
      p.1.width = p.2.width ∧
      vMerge p.1 p.2 = ⟨p.1.width, p.1.height + p.2.height⟩) := by
  refine ⟨finalDim_eq X Y T hX hY, ?_, ?_⟩
  · intro p hp
    obtain ⟨bY, _, h1, h2, _⟩ := hTraces_pair X Y T p hp
    exact ⟨h1.trans h2.symm, rfl⟩
  · intro p hp
    obtain ⟨h1, h2, _⟩ := vTrace_pair X Y T hX hY p hp
    exact ⟨h1.trans h2.symm, rfl⟩

/-- Witness for C4: a 25-by-13 grid of 2-pixel tiles (3 blocks per row,
an odd count, so a leftover is carried) composes to exactly 50 x 26. -/
theorem C4_mosaic_dimensions_witness : finalDim 25 13 2 = ⟨25 * 2, 13 * 2⟩ :=
  (C4_mosaic_dimensions 25 13 2 (by decide) (by decide)).1

/-- Claim C6: the AreaTooLarge failure fires if and only if the tile
count of the final (possibly 3x3-expanded) range exceeds the configured
ceiling, and when it fires no tile has been requested from the cache or
the provider and the cache state (stores and counters) is untouched. -/
theorem C6_preflight_ceiling (cfg : Config) (env : FetchEnv) (st : CacheSt) (a : AreaInput) :
    ((processAreaCore cfg env st a).1.outcome = AreaOutcome.tooLarge ↔
      computeTileCount (finalRange cfg a) > cfg.maxTiles) ∧
    ((processAreaCore cfg env st a).1.outcome = AreaOutcome.tooLarge →
      (processAreaCore cfg env st a).1.requested = [] ∧
      (processAreaCore cfg env st a).2 = st) := by
  have key : totalTileCount cfg a = computeTileCount (finalRange cfg a) :=
    totalTileCount_eq_final cfg a
  constructor
  · constructor
    · intro h
      have := processAreaCore_tooLarge_only_if cfg env st a h
      omega
    · intro h
      have hbig : totalTileCount cfg a > cfg.maxTiles := by omega
      rw [processAreaCore_tooLarge_eq cfg env st a hbig]
  · intro h
    have hbig : totalTileCount cfg a > cfg.maxTiles := by
      have := processAreaCore_tooLarge_only_if cfg env st a h
      omega
    rw [processAreaCore_tooLarge_eq cfg env st a hbig]
    exact ⟨rfl, rfl⟩

/-- Witness for C6: a 2x2 center with the 3x3 grid against a ceiling of
10 is over the limit (36 tiles), the failure fires, and the requested
list is empty. -/
theorem C6_preflight_ceiling_witness :
    (processAreaCore cfgLimit10 envAll st0 areaSmall).1.outcome = AreaOutcome.tooLarge ∧
    (processAreaCore cfgLimit10 envAll st0 areaSmall).1.requested = [] :=
  ⟨(C6_preflight_ceiling cfgLimit10 envAll st0 areaSmall).1.mpr (by decide),
   ((C6_preflight_ceiling cfgLimit10 envAll st0 areaSmall).2
     ((C6_preflight_ceiling cfgLimit10 envAll st0 areaSmall).1.mpr (by decide))).1⟩

/-- Claim C1 counterexample: in a batch of two areas where the first
fails the pre-flight AreaTooLarge check, the first area is NOT merely
skipped: process.exit(1) ends the run and the second area is never
processed, so the batch result lists only the first area. -/
theorem C1_counterexample :
    (processAreaCore cfgLimit10 envAll st0 areaSmall).1.outcome = AreaOutcome.tooLarge ∧
    (runBatch cfgLimit10 envAll st0 [areaSmall, areaB2]).map Prod.fst = [1] := by
  constructor
  · decide
  · decide

/-- Claim C1 (amended): a fatal failure AFTER the pre-flight check (any
tile-fetch or compose failure, in any environment) is caught per area:
every area of a batch in which no area exceeds the tile ceiling is
processed and reported, whatever the download outcomes; the pre-flight
AreaTooLarge failure, by contrast, terminates the entire process (see
the counterexample). -/
theorem C1_batch_isolation (cfg : Config) (env : FetchEnv) (st : CacheSt)
    (l : List AreaInput) (h : ∀ a ∈ l, totalTileCount cfg a ≤ cfg.maxTiles) :
    (runBatch cfg env st l).map Prod.fst = l.map AreaInput.name := by
  induction l generalizing st with
  | nil => rfl
  | cons a rest ih =>
      have hna : ¬ totalTileCount cfg a > cfg.maxTiles := by
        have := h a (by simp)
        omega
      have hne := processAreaCore_small_not_tooLarge cfg env st a hna
      unfold runBatch
      rw [if_neg hne]
      simp only [List.map_cons, List.cons.injEq]
      exact ⟨trivial, ih (processAreaCore cfg env st a).2 (fun x hx => h x (by simp [hx]))⟩

/-- Witness for C1: a two-area batch within the ceiling, in an
environment where every download of the first areas fails, still
processes and reports both areas. -/
theorem C1_batch_isolation_witness :
    (runBatch cfgGrid envNoNet st0 [areaSmall, areaB2]).map Prod.fst = [1, 2] :=
  C1_batch_isolation cfgGrid envNoNet st0 [areaSmall, areaB2] (by decide)

/-- Claim C2 counterexample: an area whose tile downloads fail aborts
with a fetch failure, writes no output, but its scoped temp workspace is
NOT deleted: cleanupTempFolder is only reached on the success path. -/
theorem C2_counterexample :
    (processAreaCore cfgGrid envNoNet st0 areaB2).1.outcome = AreaOutcome.fetchFailed ∧
    (processAreaCore cfgGrid envNoNet st0 areaB2).1.tempCreated = true ∧
    (processAreaCore cfgGrid envNoNet st0 areaB2).1.tempCleaned = false := by
  refine ⟨?_, ?_, ?_⟩ <;> decide

/-- Claim C2 (amended): when an area fails after the pre-flight check
(tile-fetch or compose failure) no final artifact is written for it, but
the scoped temporary workspace, although created, is NOT destroyed; the
workspace is removed only at the end of a successful run, where the
output is also written. -/
theorem C2_failure_no_output_no_cleanup (cfg : Config) (env : FetchEnv) (st : CacheSt)
    (a : AreaInput) :
    ((processAreaCore cfg env st a).1.outcome = AreaOutcome.fetchFailed ∨
     (processAreaCore cfg env st a).1.outcome = AreaOutcome.composeFailed →
      (processAreaCore cfg env st a).1.outputWritten = false ∧
      (processAreaCore cfg env st a).1.tempCreated = true ∧
      (processAreaCore cfg env st a).1.tempCleaned = false) ∧
    ((processAreaCore cfg env st a).1.outcome = AreaOutcome.success →
      (processAreaCore cfg env st a).1.tempCleaned = true ∧
      (processAreaCore cfg env st a).1.outputWritten = true) := by
  by_cases h : totalTileCount cfg a > cfg.maxTiles
  · rw [processAreaCore_tooLarge_eq cfg env st a h]
    constructor
    · intro hc
      rcases hc with hc | hc <;> simp at hc
    · intro hc
      simp at hc
  · rw [processAreaCore_not_large_eq cfg env st a h]
    rcases hr : (runBlocks env cfg.zoom (finalRange cfg a) st
        (blocksList (finalRange cfg a))).1 with e | u
    · cases e <;> simp [outcomeOf, Except.isOk, Except.toBool]
    · simp [outcomeOf, Except.isOk, Except.toBool]

/-- Witness for C2: the concrete fetch-failure area of the counterexample
instantiates the amended claim. -/
theorem C2_failure_no_output_no_cleanup_witness :
    (processAreaCore cfgGrid envNoNet st0 areaB2).1.outputWritten = false ∧
    (processAreaCore cfgGrid envNoNet st0 areaB2).1.tempCreated = true ∧
    (processAreaCore cfgGrid envNoNet st0 areaB2).1.tempCleaned = false :=
  (C2_failure_no_output_no_cleanup cfgGrid envNoNet st0 areaB2).1 (Or.inl (by decide))

/-- Claim C7: two successive successful fetches of one coordinate make
exactly one provider network call and record exactly one cache hit: the
first fetch misses (misses + 1, one network call), downloads and
persists; the second returns the stored bytes with hits + 1 and no
further network call. -/
theorem C7_cache_roundtrip (env : FetchEnv) (st : CacheSt) (c : TileCoord) (b : Nat)
    (hmiss : lookupTile st.store c = none) (hread : env.readOk c = true)
    (hpersist : env.persistOk c = true) (hnet : env.net c = some b) :
    (getMapTile env st c).1 = Except.ok b ∧
    (getMapTile env st c).2.misses = st.misses + 1 ∧
    (getMapTile env st c).2.hits = st.hits ∧
    (getMapTile env st c).2.netCalls = st.netCalls + 1 ∧
    (getMapTile env (getMapTile env st c).2 c).1 = Except.ok b ∧
    (getMapTile env (getMapTile env st c).2 c).2.hits = (getMapTile env st c).2.hits + 1 ∧
    (getMapTile env (getMapTile env st c).2 c).2.misses = (getMapTile env st c).2.misses ∧
    (getMapTile env (getMapTile env st c).2 c).2.netCalls
      = (getMapTile env st c).2.netCalls := by
  have h1 : getMapTile env st c =
      (Except.ok b, ⟨(c, b) :: st.store, st.hits, st.misses + 1, st.netCalls + 1⟩) := by
    unfold getMapTile downloadTile
    rw [hmiss, hnet, hpersist]
    simp
  have h2 : getMapTile env
      (⟨(c, b) :: st.store, st.hits, st.misses + 1, st.netCalls + 1⟩ : CacheSt) c =
      (Except.ok b, ⟨(c, b) :: st.store, st.hits + 1, st.misses + 1, st.netCalls + 1⟩) := by
    unfold getMapTile lookupTile
    simp [hread]
  rw [h1, h2]
  exact ⟨rfl, rfl, rfl, rfl, rfl, rfl, rfl, rfl⟩

/-- Witness for C7: fetching (0,0,5) twice from an empty cache in a
healthy environment returns the downloaded bytes both times, with one
network call and one hit in total. -/
theorem C7_cache_roundtrip_witness :
    (getMapTile envAll st0 coordC).1 = Except.ok 7 ∧
    (getMapTile envAll (getMapTile envAll st0 coordC).2 coordC).2.hits = 1 ∧
    (getMapTile envAll (getMapTile envAll st0 coordC).2 coordC).2.netCalls = 1 := by
  obtain ⟨a1, a2, a3, a4, a5, a6, a7, a8⟩ :=
    C7_cache_roundtrip envAll st0 coordC 7 rfl rfl rfl rfl
  refine ⟨a1, ?_, ?_⟩
  · rw [a6, a3]
    rfl
  · rw [a8, a4]
    rfl

/-- Claim C9 (implicit): when the cache file exists but reading it
throws, that single getMapTile call increments the hit counter (before
the failed read) AND the miss counter (in the download fall-through), so
hits plus misses grows by two for one fetch and the one-hit-or-one-miss
accounting invariant fails on this path. -/
theorem C9_corrupt_cache_double_count (env : FetchEnv) (st : CacheSt) (c : TileCoord)
    (b0 b : Nat) (hhit : lookupTile st.store c = some b0) (hread : env.readOk c = false)
    (hnet : env.net c = some b) :
    (getMapTile env st c).1 = Except.ok b ∧
    (getMapTile env st c).2.hits = st.hits + 1 ∧
    (getMapTile env st c).2.misses = st.misses + 1 ∧
    (getMapTile env st c).2.netCalls = st.netCalls + 1 ∧
    (getMapTile env st c).2.hits + (getMapTile env st c).2.misses
      = st.hits + st.misses + 2 := by
  by_cases hp : env.persistOk c
  · have h1 : getMapTile env st c =
        (Except.ok b, ⟨(c, b) :: st.store, st.hits + 1, st.misses + 1, st.netCalls + 1⟩) := by
      unfold getMapTile downloadTile
      rw [hhit, hread, hnet]
      simp [hp]
    rw [h1]
    refine ⟨rfl, rfl, rfl, rfl, ?_⟩
    dsimp only
    omega
  · have h1 : getMapTile env st c =
        (Except.ok b, ⟨st.store, st.hits + 1, st.misses + 1, st.netCalls + 1⟩) := by
      unfold getMapTile downloadTile
      rw [hhit, hread, hnet]
      simp [hp]
    rw [h1]
    refine ⟨rfl, rfl, rfl, rfl, ?_⟩
    dsimp only
    omega

/-- Witness for C9: a pre-loaded cache entry whose read fails leads to a
fetch that counts both one hit and one miss and still returns the newly
downloaded bytes. -/
theorem C9_corrupt_cache_double_count_witness :
    (getMapTile envBadRead stPre coordC).1 = Except.ok 5 ∧
    (getMapTile envBadRead stPre coordC).2.hits = 1 ∧
    (getMapTile envBadRead stPre coordC).2.misses = 1 := by
  obtain ⟨a1, a2, a3, a4, a5⟩ :=
    C9_corrupt_cache_double_count envBadRead stPre coordC 3 5 rfl rfl rfl
  refine ⟨a1, ?_, ?_⟩
  · rw [a2]
    rfl
  · rw [a3]
    rfl

/-- Claim C8 counterexample: for an area whose center range touches the
corner of the zoom-1 grid, the 3x3 expansion requests coordinate
(-1, -1), which is outside the zoom level's [0, 2) tile grid: the
expansion performs no clamping. -/
theorem C8_counterexample :
    (⟨-1, -1, 1⟩ : TileCoord) ∈ (processAreaCore cfgZ1 envAll st0 areaEdge).1.requested ∧
    ¬ inGrid cfgZ1.zoom (⟨-1, -1, 1⟩ : TileCoord) := by
  constructor
  · decide
  · decide

/-- Claim C8 (amended): every tile coordinate requested for an area lies
inside the final (possibly 3x3-expanded) range, so whenever that range
itself fits inside the zoom level's grid, every requested coordinate
satisfies 0 <= x < 2^zoom and 0 <= y < 2^zoom; when the expanded range
sticks out of the grid (center too close to the edge), out-of-grid
indices are requested (see the counterexample). -/
theorem C8_requested_in_grid (cfg : Config) (env : FetchEnv) (st : CacheSt) (a : AreaInput)
    (hx0 : 0 ≤ (finalRange cfg a).minX) (hx1 : (finalRange cfg a).maxX < 2 ^ cfg.zoom)
    (hy0 : 0 ≤ (finalRange cfg a).minY) (hy1 : (finalRange cfg a).maxY < 2 ^ cfg.zoom) :
    ∀ c ∈ (processAreaCore cfg env st a).1.requested, inGrid cfg.zoom c := by
  intro c hc
  obtain ⟨b, _, hmem⟩ := mem_requested cfg env st a c hc
  obtain ⟨h1, h2, h3, h4, _⟩ := mem_blockCoords hmem
  exact ⟨by omega, by omega, by omega, by omega⟩

/-- Witness for C8: for the small zoom-5 area whose expansion spans
[6, 11] in both axes, a requested corner coordinate is inside the
zoom-5 grid. -/
theorem C8_requested_in_grid_witness : inGrid cfgGrid.zoom (⟨6, 6, 5⟩ : TileCoord) :=
  C8_requested_in_grid cfgGrid envAll st0 areaSmall (by decide) (by decide) (by decide)
    (by decide) ⟨6, 6, 5⟩ (by decide)

/-- Claim C10 counterexample: for a 1x1 grid of 1-pixel tiles the single
normalized tile buffer has exactly the full mosaic's pixel size, so on
degenerate grids a single in-memory buffer does reach the size of the
full mosaic. -/
theorem C10_counterexample :
    AllocEvent.tileBuffer 1 1 ∈ composeAllocs 1 1 1 ∧
    isSingleBuffer (AllocEvent.tileBuffer 1 1) = true ∧
    eventPixels (AllocEvent.tileBuffer 1 1)
      = (finalDim 1 1 1).width * (finalDim 1 1 1).height ∧
    ¬ (eventPixels (AllocEvent.tileBuffer 1 1) < 1 * 1 * (1 * 1)) := by
  refine ⟨?_, ?_, ?_, ?_⟩ <;> decide

/-- Claim C10 (amended): for every grid of more than one tile, no single
in-memory pixel buffer during composition reaches the full mosaic's
pixel size: the only buffers ever materialized are single normalized
tiles (T*T pixels each) and the two file inputs of a pairwise merge,
each strictly smaller than the mosaic; the pixels resident while one
block is composited to its file never exceed one block's worth
(at most BLOCK*BLOCK tiles). -/
theorem C10_bounded_memory (X Y T : Nat) (hX : 1 ≤ X) (hY : 1 ≤ Y) (hT : 1 ≤ T)
    (hXY : 2 ≤ X * Y) :
    ∀ e ∈ composeAllocs X Y T,
      (isSingleBuffer e = true → eventPixels e < X * Y * (T * T)) ∧
      (isSingleBuffer e = false → eventPixels e ≤ BLOCK * BLOCK * (T * T)) := by
  have hTT : 1 ≤ T * T := Nat.one_le_iff_ne_zero.mpr (by positivity)
  intro e he
  unfold composeAllocs at he
  rw [List.mem_append, List.mem_append] at he
  rcases he with (he | he) | he
  · -- phase 1 block events
    rw [List.mem_flatMap] at he
    obtain ⟨bY, hbY, he⟩ := he
    rw [List.mem_flatMap] at he
    obtain ⟨bx, hbx, he⟩ := he
    unfold blockAllocs at he
    rw [List.mem_append] at he
    rcases he with he | he
    · -- a tile buffer of T*T pixels
      have : e = AllocEvent.tileBuffer T T := (List.eq_of_mem_replicate he)
      subst this
      refine ⟨fun _ => ?_, fun hc => by simp [isSingleBuffer] at hc⟩
      have h2 : 2 * (T * T) ≤ X * Y * (T * T) := Nat.mul_le_mul_right _ hXY
      show T * T < X * Y * (T * T)
      omega
    · -- the block-resident set
      simp only [List.mem_singleton] at he
      subst he
      refine ⟨fun hc => by simp [isSingleBuffer] at hc, fun _ => ?_⟩
      show blockW X bx * T * (blockW Y bY * T) ≤ BLOCK * BLOCK * (T * T)
      calc blockW X bx * T * (blockW Y bY * T)
          ≤ BLOCK * T * (BLOCK * T) :=
            Nat.mul_le_mul (Nat.mul_le_mul_right T (blockW_le_BLOCK X bx))
              (Nat.mul_le_mul_right T (blockW_le_BLOCK Y bY))
        _ = BLOCK * BLOCK * (T * T) := by ring
  · -- horizontal merge inputs
    rw [List.mem_flatMap] at he
    obtain ⟨p, hp, he⟩ := he
    obtain ⟨bY, hbY, hh1, hh2, hw1, hw2, hsum⟩ := hTraces_pair X Y T p hp
    have hrow : blockW Y bY * T ≤ Y * T := Nat.mul_le_mul_right T (blockW_le Y bY)
    have hkey : ∀ w h : Nat, w + T ≤ X * T → h ≤ Y * T →
        w * h < X * Y * (T * T) := by
      intro w h hw hh
      have hw' : w ≤ (X - 1) * T := by
        have : (X - 1) * T = X * T - T := by
          rw [Nat.sub_mul, one_mul]
        omega
      have hb : w * h ≤ (X - 1) * T * (Y * T) := Nat.mul_le_mul hw' hh
      have hlt : (X - 1) * (Y * (T * T)) < X * (Y * (T * T)) := by
        have hpos : 0 < Y * (T * T) := by positivity
        exact (Nat.mul_lt_mul_right hpos).mpr (by omega)
      have he1 : (X - 1) * T * (Y * T) = (X - 1) * (Y * (T * T)) := by ring
      have he2 : X * Y * (T * T) = X * (Y * (T * T)) := by ring
      omega
    rw [List.mem_cons, List.mem_singleton] at he
    rcases he with rfl | rfl
    · refine ⟨fun _ => ?_, fun hc => by simp [isSingleBuffer] at hc⟩
      show p.1.width * p.1.height < X * Y * (T * T)
      exact hkey p.1.width p.1.height (by omega) (by omega)
    · refine ⟨fun _ => ?_, fun hc => by simp [isSingleBuffer] at hc⟩
      show p.2.width * p.2.height < X * Y * (T * T)
      exact hkey p.2.width p.2.height (by omega) (by omega)
  · -- vertical merge inputs
    rw [List.mem_flatMap] at he
    obtain ⟨p, hp, he⟩ := he
    obtain ⟨hw1, hw2, hh1, hh2, hsum⟩ := vTrace_pair X Y T hX hY p hp
    have hkey : ∀ w h : Nat, w = X * T → h + T ≤ Y * T →
        w * h < X * Y * (T * T) := by
      intro w h hw hh
      have hh' : h ≤ (Y - 1) * T := by
        have : (Y - 1) * T = Y * T - T := by
          rw [Nat.sub_mul, one_mul]
        omega
      have hb : w * h ≤ X * T * ((Y - 1) * T) := by
        rw [hw]
        exact Nat.mul_le_mul_left _ hh'
      have hlt : (Y - 1) * (X * (T * T)) < Y * (X * (T * T)) := by
        have hpos : 0 < X * (T * T) := by positivity
        exact (Nat.mul_lt_mul_right hpos).mpr (by omega)
      have he1 : X * T * ((Y - 1) * T) = (Y - 1) * (X * (T * T)) := by ring
      have he2 : X * Y * (T * T) = Y * (X * (T * T)) := by ring
      omega
    rw [List.mem_cons, List.mem_singleton] at he
    rcases he with rfl | rfl
    · refine ⟨fun _ => ?_, fun hc => by simp [isSingleBuffer] at hc⟩
      show p.1.width * p.1.height < X * Y * (T * T)
      exact hkey p.1.width p.1.height hw1 (by omega)
    · refine ⟨fun _ => ?_, fun hc => by simp [isSingleBuffer] at hc⟩
      show p.2.width * p.2.height < X * Y * (T * T)
      exact hkey p.2.width p.2.height hw2 (by omega)

/-- Witness for C10: in a 4-by-3 grid of 2-pixel tiles every normalized
tile buffer (4 pixels) stays below the 48-pixel mosaic. -/
theorem C10_bounded_memory_witness :
    eventPixels (AllocEvent.tileBuffer 2 2) < 4 * 3 * (2 * 2) :=
  ((C10_bounded_memory 4 3 2 (by decide) (by decide) (by decide) (by decide))
    (AllocEvent.tileBuffer 2 2) (by decide)).1 (by decide)
